import Mathlib

/-!
# ChainWalker: contract scanner and persistence gateway

A shallow embedding of `internal/pg.go` and `internal/contracts.go`.

* The PostgreSQL store is a pair of row lists, one per table; the two
  `INSERT ... ON CONFLICT (key) DO NOTHING` statements are list updates that
  leave the table alone when a row with the key is present.
* `log.Fatal()` ends the process: it is the `Abort.fatal` result.  A Go
  run-time panic is `Abort.panic`.
* Results of calls to the ledger client and the connection pool are inputs
  of the model (records of answers), since both live outside the repository.
-/

namespace ChainWalker

/-! ## Data model (`contracts.go` lines 20-28, SQL of `pg.go`) -/

/-- The Go struct `ContractDeployRecord`.  `CreationTime` is a point in time,
kept here as an integer count of time units. -/
structure ContractDeployRecord where
  ContractAddress : String
  Deployer : Option String
  Bytecode : String
  Codehash : String
  CreationTime : Int
  TxHash : String
  BlockNum : Int
  deriving DecidableEq, Repr

/-- A row of `contract.contract_deploy_record`, columns in the order of the
INSERT statement of `InsertOneContract`. -/
structure DeployRow where
  contract_address : String
  deployer : Option String
  codehash : String
  creation_time : Int
  txhash : String
  block_num : Int
  deriving DecidableEq, Repr

/-- A row of `contract.hash_to_bytecode`. -/
structure CodeRow where
  codehash : String
  bytecode : String
  deriving DecidableEq, Repr

/-- The durable store: the two tables. -/
structure Store where
  deploy : List DeployRow
  code : List CodeRow
  deriving DecidableEq, Repr

/-- The store with no rows. -/
def Store.empty : Store := ⟨[], []⟩

/-- The uniqueness constraints the two `ON CONFLICT` targets rely on:
`contract_address` is a key of the deployment table and `codehash` is a key of
the code-body table. -/
def Store.Keyed (s : Store) : Prop :=
  (s.deploy.map DeployRow.contract_address).Nodup ∧
  (s.code.map CodeRow.codehash).Nodup

/-- Why the process stopped: `log.Fatal()` (exit after logging) or a Go panic. -/
inductive Abort where
  | fatal (msg : String)
  | panic (msg : String)
  deriving DecidableEq, Repr

/-- Answers of the connection pool during one gateway call: the error, if any,
returned by `db.Acquire` and by each statement. -/
structure DbFaults where
  acquire : Option String
  first : Option String
  second : Option String
  deriving DecidableEq, Repr

/-- A pool on which every call succeeds. -/
def DbFaults.healthy : DbFaults := ⟨none, none, none⟩

/-! ## Persistence gateway (`pg.go`) -/

/-- The values bound to `$1 .. $6` of the first INSERT of `InsertOneContract`. -/
def deployRowOf (record : ContractDeployRecord) : DeployRow :=
  { contract_address := record.ContractAddress
    deployer := record.Deployer
    codehash := record.Codehash
    creation_time := record.CreationTime
    txhash := record.TxHash
    block_num := record.BlockNum }

/-- The statement `INSERT INTO contract.contract_deploy_record (...) VALUES(...)
ON CONFLICT (contract_address) DO NOTHING`. -/
def execInsertDeploy (s : Store) (record : ContractDeployRecord) : Store :=
  if s.deploy.any (fun row => row.contract_address == record.ContractAddress) then s
  else { s with deploy := s.deploy ++ [deployRowOf record] }

/-- The statement `INSERT INTO contract.hash_to_bytecode (codehash, bytecode)
VALUES($1, $2) ON CONFLICT (codehash) DO NOTHING`. -/
def execInsertCode (s : Store) (record : ContractDeployRecord) : Store :=
  if s.code.any (fun row => row.codehash == record.Codehash) then s
  else { s with code := s.code ++ [⟨record.Codehash, record.Bytecode⟩] }

/-- `InsertOneContract` (`pg.go` lines 101-124).  Each error branch calls
`log.Fatal()`, which ends the process; otherwise the two statements run in
order on the acquired connection. -/
def InsertOneContract (db : DbFaults) (s : Store) (record : ContractDeployRecord) :
    Except Abort Store :=
  match db.acquire with
  | some _ => .error (.fatal "Failed to acquire a connection")
  | none =>
    match db.first with
    | some _ => .error (.fatal "Failed to insert a contract deploy record into the database")
    | none =>
      let s1 := execInsertDeploy s record
      match db.second with
      | some _ => .error (.fatal "Failed to insert a codehash record into the database")
      | none => .ok (execInsertCode s1 record)

/-- The query `SELECT block_num FROM contract.contract_deploy_record ORDER BY
block_num DESC LIMIT 1`: the largest `block_num`, no row when the table is
empty. -/
def queryLastBlock : List DeployRow → Option Int
  | [] => none
  | row :: rest =>
    match queryLastBlock rest with
    | none => some row.block_num
    | some m => some (max row.block_num m)

/-- `LastBlockNumber` (`pg.go` lines 154-171).  `Scan` on an empty result
returns an error, and every error branch is `log.Fatal()`. -/
def LastBlockNumber (db : DbFaults) (s : Store) : Except Abort Int :=
  match db.acquire with
  | some _ => .error (.fatal "Failed to acquire a connection")
  | none =>
    match db.first with
    | some _ => .error (.fatal "Failed to query the last block number")
    | none =>
      match queryLastBlock s.deploy with
      | none => .error (.fatal "Failed to query the last block number")
      | some blockNum => .ok blockNum

/-- Number of deployment rows with the given contract address. -/
def Store.deployCount (s : Store) (addr : String) : Nat :=
  s.deploy.countP (fun row => row.contract_address == addr)

/-- Number of code-body rows with the given code hash. -/
def Store.codeCount (s : Store) (hash : String) : Nat :=
  s.code.countP (fun row => row.codehash == hash)

/-- `QueryCurrentStatistics` (`pg.go` lines 126-152): the two `COUNT(*)`
queries; each error branch is `log.Fatal()`. -/
def QueryCurrentStatistics (db : DbFaults) (s : Store) : Except Abort (Nat × Nat) :=
  match db.acquire with
  | some _ => .error (.fatal "Failed to acquire a connection")
  | none =>
    match db.first with
    | some _ => .error (.fatal "Failed to query the contract count")
    | none =>
      match db.second with
      | some _ => .error (.fatal "Failed to query the codehash count")
      | none => .ok (s.deploy.length, s.code.length)

/-! ## Machine integers -/

/-- The Go conversion `uint64(x)` of an `int64`. -/
def toUint64 (x : Int) : Nat := (x % 2 ^ 64).toNat

/-- The Go conversion `int64(n)` of a `uint64`. -/
def toInt64 (n : Nat) : Int :=
  if n % 2 ^ 64 < 2 ^ 63 then ((n % 2 ^ 64 : Nat) : Int) else ((n % 2 ^ 64 : Nat) : Int) - 2 ^ 64

/-- The result of `int64` arithmetic whose exact value is `x`. -/
def wrapInt64 (x : Int) : Int := toInt64 (toUint64 x)

/-- The values of type `int64`. -/
def InInt64 (x : Int) : Prop := -2 ^ 63 ≤ x ∧ x < 2 ^ 63

instance (x : Int) : Decidable (InInt64 x) := by unfold InInt64; infer_instance

/-! ## Range resolution and dispatch (`contracts.go` lines 74-118) -/

/-- Answers of the collaborators at start-up and during dispatch. -/
structure ScanEnv where
  /-- the error of `ethclient.Dial`, if any -/
  dial : Option String
  /-- the answer of `client.BlockNumber` (a `uint64`) -/
  blockNumber : Except String Nat
  /-- the error of `Connect`, if any -/
  connect : Option String
  /-- the pool during `LastBlockNumber` -/
  db : DbFaults
  /-- the outcome of the `QueryCurrentStatistics` call made at a height -/
  stats : Int → Except Abort (Nat × Nat)

/-- What a run of the dispatch path did: the `[start, end)` the loop ran
with, the heights for which a goroutine was started, in order, and the abort
that stopped it, if any. -/
structure ScanTrace where
  range : Option (Int × Int)
  dispatched : List Int
  abort : Option Abort
  deriving DecidableEq, Repr

/-- Lines 88-90: `if uint64(end) > currentBlock { end = int64(currentBlock) }`. -/
def clampEnd (end_ : Int) (currentBlock : Nat) : Int :=
  if toUint64 end_ > currentBlock then toInt64 currentBlock else end_

/-- The loop `for i := start; i < end; i++` of lines 108-218, as far as
dispatch goes: the periodic statistics call, then `go func(i)`.  The first
argument bounds the number of iterations. -/
def scanLoop (stats : Int → Except Abort (Nat × Nat)) :
    Nat → Int → Int → List Int × Option Abort
  | 0, _, _ => ([], none)
  | fuel + 1, i, end_ =>
    if i < end_ then
      match (if i % 100000 = 0 then stats i else .ok (0, 0)) with
      | .error a => ([], some a)
      | .ok _ =>
        let rest := scanLoop stats fuel (wrapInt64 (i + 1)) end_
        (i :: rest.1, rest.2)
    else ([], none)

/-- `DownloadContractsEVM`, lines 74-118: the start-up sequence and the
dispatch loop.  The caller's `start` is overwritten by the answer of
`LastBlockNumber` on the only branch that goes on. -/
def DownloadContractsEVM (env : ScanEnv) (s : Store) (_start end_ : Int) : ScanTrace :=
  match env.dial with
  | some _ => ⟨none, [], some (.fatal "Can not connect")⟩
  | none =>
    match env.blockNumber with
    | .error _ => ⟨none, [], some (.fatal "Can not get the current block")⟩
    | .ok currentBlock =>
      let end1 := clampEnd end_ currentBlock
      match env.connect with
      | some _ => ⟨none, [], some (.fatal "Failed to connect to the database")⟩
      | none =>
        match LastBlockNumber env.db s with
        | .error a => ⟨none, [], some a⟩
        | .ok last_block_number =>
          let start := last_block_number
          let run := scanLoop env.stats (end1 - start).toNat start end1
          ⟨some (start, end1), run.1, run.2⟩

/-- Collaborators that all answer, with the endpoint at height `c`. -/
def ScanEnv.healthy (c : Nat) : ScanEnv :=
  { dial := none, blockNumber := .ok c, connect := none, db := DbFaults.healthy,
    stats := fun _ => .ok (0, 0) }

/-! ## Unit conversion (`contracts.go` lines 225-234)

A finite `big.Float` is a dyadic rational and is kept as its exact value; an
operation at precision `prec` with mode `ToNearestEven` returns the exact
result rounded to `prec` bits of mantissa. -/

/-- The value of a `float64`. -/
inductive Float64 where
  | finite (q : ℚ)
  | posInf
  | negInf
  | nan
  deriving DecidableEq

/-- The value of a `*big.Float`. -/
inductive BigFloat where
  | fin (q : ℚ)
  | inf (neg : Bool)
  deriving DecidableEq

/-- The Go comparison `x > 0` on `float64`. -/
def Float64.gtZero : Float64 → Bool
  | .finite q => decide (0 < q)
  | .posInf => true
  | .negInf => false
  | .nan => false

/-- `big.NewFloat(x)`: the exact value, a panic on NaN. -/
def NewFloat : Float64 → Except Abort BigFloat
  | .finite q => .ok (.fin q)
  | .posInf => .ok (.inf false)
  | .negInf => .ok (.inf true)
  | .nan => .error (.panic "NewFloat(NaN)")

/-- `x.Cmp(y)`: -1, 0 or +1. -/
def BigFloat.Cmp : BigFloat → BigFloat → Int
  | .fin a, .fin b => if a < b then -1 else if a = b then 0 else 1
  | .fin _, .inf neg => if neg then 1 else -1
  | .inf neg, .fin _ => if neg then -1 else 1
  | .inf n1, .inf n2 => if n1 = n2 then 0 else if n1 then -1 else 1

/-- The integer `f` with `2 ^ f ≤ |x| < 2 ^ (f + 1)`, for `x ≠ 0`. -/
def floorLog2 (x : ℚ) : Int :=
  let f : Int := (Nat.log2 x.num.natAbs : Int) - (Nat.log2 x.den : Int)
  if (2 : ℚ) ^ f ≤ |x| then f else f - 1

/-- Rounding to the nearest integer, a tie to the even one. -/
def roundHalfEven (x : ℚ) : Int :=
  let fl := Rat.floor x
  let r := x - fl
  if r < 1 / 2 then fl else if 1 / 2 < r then fl + 1 else if fl % 2 = 0 then fl else fl + 1

/-- Rounding of an exact value to `prec` bits of mantissa, mode `ToNearestEven`. -/
def roundToPrec (prec : Nat) (x : ℚ) : ℚ :=
  if x = 0 then 0
  else
    let e : Int := floorLog2 x - ((prec : Int) - 1)
    (roundHalfEven (x / (2 : ℚ) ^ e) : ℚ) * (2 : ℚ) ^ e

/-- The constant `params.Ether = 1e18` of go-ethereum, which `big.NewFloat`
holds exactly. -/
def paramsEther : ℚ := 10 ^ 18

/-- `WeiToEther`: `fWei.SetInt(wei)` rounds the integer to 236 bits, `f.Quo`
rounds the quotient by `params.Ether` to 236 bits.  A nil `wei` is
dereferenced by `SetInt`, which panics. -/
def WeiToEther (wei : Option Int) : Except Abort BigFloat :=
  match wei with
  | none => .error (.panic "nil pointer dereference")
  | some w => .ok (.fin (roundToPrec 236 (roundToPrec 236 (w : ℚ) / paramsEther)))

/-- Lines 175-206, the balance filter: whether the hit branch (report the
contract, write the side file unless `printOnly`) is taken.  Both branches
evaluate `WeiToEther(accountBalance)`. -/
def balanceFilter (balance : Float64) (accountBalance : Option Int) : Except Abort Bool :=
  match NewFloat balance with
  | .error a => .error a
  | .ok y =>
    if balance.gtZero then
      match WeiToEther accountBalance with
      | .error a => .error a
      | .ok x => .ok (decide (x.Cmp y = 1))
    else
      match WeiToEther accountBalance with
      | .error a => .error a
      | .ok _ => .ok true

/-! ## Contract extraction (`contracts.go` lines 129-212) -/

/-- A transaction of a fetched block: `To()`, `Hash()`, `Time()`. -/
structure Tx where
  To : Option String
  Hash : String
  Time : Int
  deriving DecidableEq, Repr

/-- Answers of the ledger client.  As in Go, `CodeAt` and `BalanceAt` give a
value together with an error, and the balance is a pointer that may be nil.
`TransactionReceipt` answers with the contract address of the receipt. -/
structure Client where
  BlockByNumber : Int → Except String (List Tx)
  TransactionReceipt : String → Except String String
  CodeAt : String → List UInt8 × Option String
  BalanceAt : String → Option Int × Option String

/-- What the extractor has done so far: the store, the contracts reported
by a hit branch, and the calls of `WriteHexToFile` (address, content). -/
structure World where
  store : Store
  reported : List String
  files : List (String × String)
  deriving DecidableEq, Repr

/-- A lower-case hexadecimal digit. -/
def hexDigit (n : Nat) : Char :=
  if n < 10 then Char.ofNat (48 + n) else Char.ofNat (87 + n)

/-- `hex.EncodeToString`. -/
def EncodeToString (bytes : List UInt8) : String :=
  String.mk (bytes.flatMap fun b => [hexDigit (b.toNat / 16), hexDigit (b.toNat % 16)])

/-- Lines 136-208 for one transaction with `To() == nil`.  A receipt error
ends the iteration (`continue`); a code error and a balance error are logged
and the iteration goes on with the values returned. -/
def processTx (keccak256 : List UInt8 → List UInt8) (client : Client) (db : DbFaults)
    (balance : Float64) (printOnly : Bool) (i : Int) (tx : Tx) (w : World) :
    Except Abort World :=
  match client.TransactionReceipt tx.Hash with
  | .error _ => .ok w
  | .ok contractAddress =>
    let bytecode := (client.CodeAt contractAddress).1
    let codeHash := keccak256 bytecode
    let contractDeployRecord : ContractDeployRecord :=
      { ContractAddress := contractAddress
        Deployer := none
        Bytecode := EncodeToString bytecode
        Codehash := EncodeToString codeHash
        CreationTime := tx.Time
        TxHash := tx.Hash
        BlockNum := i }
    match InsertOneContract db w.store contractDeployRecord with
    | .error a => .error a
    | .ok store1 =>
      let accountBalance := (client.BalanceAt contractAddress).1
      match balanceFilter balance accountBalance with
      | .error a => .error a
      | .ok false => .ok { w with store := store1 }
      | .ok true =>
        .ok { store := store1
              reported := w.reported ++ [contractAddress]
              files := if printOnly then w.files
                       else w.files ++ [(contractAddress, EncodeToString bytecode)] }

/-- Lines 129-212: the loop over the transactions of a block. -/
def processBlock (keccak256 : List UInt8 → List UInt8) (client : Client) (db : DbFaults)
    (balance : Float64) (printOnly : Bool) (i : Int) : List Tx → World → Except Abort World
  | [], w => .ok w
  | tx :: rest, w =>
    match tx.To with
    | some _ => processBlock keccak256 client db balance printOnly i rest w
    | none =>
      match processTx keccak256 client db balance printOnly i tx w with
      | .error a => .error a
      | .ok w1 => processBlock keccak256 client db balance printOnly i rest w1

/-! ## The slot protocol (`contracts.go` lines 104-127 and 214-220)

Each `go func(i)` is a unit.  It sends on the buffered channel
`maxGoRoutines` (capacity `concurrency`), fetches the block, returns at once
when the fetch fails, and otherwise processes the block and receives from
the channel. -/

/-- Where a unit stands in the body of the goroutine. -/
inductive UnitPC where
  /-- started, before the send of line 120 -/
  | spawned
  /-- after the send, in `BlockByNumber` (line 121) -/
  | fetching
  /-- fetch succeeded, in lines 129-212 -/
  | processing
  /-- left by the `return` of line 126 -/
  | returnedOnError
  /-- went through the receive of line 214 and left -/
  | finished
  deriving DecidableEq, Repr

/-- The units started so far and the number of elements in the channel. -/
structure Sched where
  units : List UnitPC
  slots : Nat
  deriving DecidableEq, Repr

/-- One step of the main loop or of a unit. -/
inductive Action where
  /-- the main loop starts a unit (`go func(i)`) -/
  | spawn
  /-- the unit sends on the channel -/
  | acquire (u : Nat)
  /-- `BlockByNumber` returns a block -/
  | fetchOk (u : Nat)
  /-- `BlockByNumber` returns an error and the unit returns -/
  | fetchErr (u : Nat)
  /-- the unit is done with the block and receives from the channel -/
  | release (u : Nat)
  deriving DecidableEq, Repr

/-- The step relation, as a function: `none` when the action is not enabled.
A send is enabled when the channel holds fewer than `k` elements, a receive
when it holds at least one. -/
def step (k : Nat) (c : Sched) : Action → Option Sched
  | .spawn => some { c with units := c.units ++ [UnitPC.spawned] }
  | .acquire u =>
    if c.units.get? u = some UnitPC.spawned ∧ c.slots < k then
      some { units := c.units.set u UnitPC.fetching, slots := c.slots + 1 }
    else none
  | .fetchOk u =>
    if c.units.get? u = some UnitPC.fetching then
      some { c with units := c.units.set u UnitPC.processing }
    else none
  | .fetchErr u =>
    if c.units.get? u = some UnitPC.fetching then
      some { c with units := c.units.set u UnitPC.returnedOnError }
    else none
  | .release u =>
    if c.units.get? u = some UnitPC.processing ∧ 0 < c.slots then
      some { units := c.units.set u UnitPC.finished, slots := c.slots - 1 }
    else none

/-- The state before the loop: no unit, an empty channel. -/
def Sched.init : Sched := ⟨[], 0⟩

/-- Running a sequence of actions. -/
def run (k : Nat) : Sched → List Action → Option Sched
  | c, [] => some c
  | c, a :: rest =>
    match step k c a with
    | none => none
    | some c1 => run k c1 rest

/-- The states the scan can be in with a channel of capacity `k`. -/
def Reachable (k : Nat) (c : Sched) : Prop :=
  ∃ acts : List Action, run k Sched.init acts = some c

/-- Whether a unit has sent on the channel and is still in the body. -/
def UnitPC.holding : UnitPC → Bool
  | .fetching => true
  | .processing => true
  | _ => false

/-- Whether a unit has left the body of the goroutine. -/
def UnitPC.done : UnitPC → Bool
  | .returnedOnError => true
  | .finished => true
  | _ => false

/-- The number of units that hold a slot. -/
def Sched.holders (c : Sched) : Nat := c.units.countP UnitPC.holding

/-- The number of units that left by the `return` of line 126. -/
def Sched.leaked (c : Sched) : Nat :=
  c.units.countP (fun pc => decide (pc = UnitPC.returnedOnError))

/-! ## Predicates of the statements and example inputs -/

/-- The order of the values of two `big.Float`s: `x.Below y` when the value
of `x` is strictly less than the value of `y`. -/
def BigFloat.Below : BigFloat → BigFloat → Prop
  | .fin a, .fin b => a < b
  | .fin _, .inf neg => neg = false
  | .inf neg, .fin _ => neg = true
  | .inf n1, .inf n2 => n1 = true ∧ n2 = false


/-- `H` is the maximum `block_num` among the stored deployment rows. -/
def IsMaxBlock (s : Store) (H : Int) : Prop :=
  (∃ row ∈ s.deploy, row.block_num = H) ∧ ∀ row ∈ s.deploy, row.block_num ≤ H

/-- The collaborators answer at start-up, the endpoint with height `c`. -/
def ScanEnv.Answers (env : ScanEnv) (c : Nat) : Prop :=
  env.dial = none ∧ env.blockNumber = .ok c ∧ env.connect = none ∧
  env.db.acquire = none ∧ env.db.first = none

/-- A record used in the examples. -/
def recA : ContractDeployRecord :=
  { ContractAddress := "0xA1", Deployer := none, Bytecode := "6080", Codehash := "c5d2",
    CreationTime := 1700000000, TxHash := "0x01", BlockNum := 5 }

/-- A second record: another address, the same code as `recA`. -/
def recB : ContractDeployRecord :=
  { ContractAddress := "0xB2", Deployer := none, Bytecode := "6080", Codehash := "c5d2",
    CreationTime := 1700000100, TxHash := "0x02", BlockNum := 3 }

/-- The store after `recA` and `recB` were inserted: maximum height 5. -/
def storeAB : Store :=
  { deploy := [deployRowOf recA, deployRowOf recB], code := [⟨"c5d2", "6080"⟩] }

/-- A stand-in for `crypto.Keccak256` in the examples (the digest plays no
part in them): two fixed bytes. -/
def keccakStub (_ : List UInt8) : List UInt8 := [0xc5, 0xd2]

/-- A client whose receipt fetch fails. -/
def clientReceiptErr : Client :=
  { BlockByNumber := fun _ => .ok []
    TransactionReceipt := fun _ => .error "not found"
    CodeAt := fun _ => ([0x60, 0x80], none)
    BalanceAt := fun _ => (some 0, none) }

/-- A client whose code fetch fails: `CodeAt` returns no bytes and an error. -/
def clientCodeErr : Client :=
  { BlockByNumber := fun _ => .ok []
    TransactionReceipt := fun _ => .ok "0xC0"
    CodeAt := fun _ => ([], some "connection reset")
    BalanceAt := fun _ => (some 0, none) }

/-- A client whose balance fetch fails with a nil balance. -/
def clientBalanceErrNil : Client :=
  { BlockByNumber := fun _ => .ok []
    TransactionReceipt := fun _ => .ok "0xC0"
    CodeAt := fun _ => ([0x60, 0x80], none)
    BalanceAt := fun _ => (none, some "connection reset") }

/-- A client whose balance fetch fails with a zero balance next to the error. -/
def clientBalanceErrZero : Client :=
  { BlockByNumber := fun _ => .ok []
    TransactionReceipt := fun _ => .ok "0xC0"
    CodeAt := fun _ => ([0x60, 0x80], none)
    BalanceAt := fun _ => (some 0, some "connection reset") }

/-- A contract-creation transaction. -/
def txCreate : Tx := { To := none, Hash := "0x01", Time := 1700000000 }

/-- The world before anything was stored or reported. -/
def World.empty : World := ⟨Store.empty, [], []⟩

/-! ### Lemmas on the two statements -/

theorem countP_key_le_one {α : Type} (key : α → String) (l : List α) (k : String)
    (h : (l.map key).Nodup) : l.countP (fun row => key row == k) ≤ 1 := by
  induction l with
  | nil => simp
  | cons a t ih =>
    rw [List.map_cons, List.nodup_cons] at h
    by_cases hk : key a = k
    · have h0 : t.countP (fun row => key row == k) = 0 := by
        rw [List.countP_eq_zero]
        intro b hb hbk
        apply h.1
        rw [hk]
        exact List.mem_map.mpr ⟨b, hb, by simpa using hbk⟩
      simp [List.countP_cons, hk, h0]
    · have := ih h.2
      simp [List.countP_cons, hk, this]

theorem countP_key_pos {α : Type} (key : α → String) (l : List α) (k : String)
    (h : l.any (fun row => key row == k) = true) :
    0 < l.countP (fun row => key row == k) := by
  rw [List.countP_pos_iff]
  simpa using h

theorem execInsertDeploy_any (s : Store) (r : ContractDeployRecord) :
    (execInsertDeploy s r).deploy.any
      (fun row => row.contract_address == r.ContractAddress) = true := by
  unfold execInsertDeploy
  split
  · assumption
  · simp [deployRowOf]

theorem execInsertCode_any (s : Store) (r : ContractDeployRecord) :
    (execInsertCode s r).code.any (fun row => row.codehash == r.Codehash) = true := by
  unfold execInsertCode
  split
  · assumption
  · simp

theorem execInsertDeploy_idem (s : Store) (r : ContractDeployRecord) :
    execInsertDeploy (execInsertDeploy s r) r = execInsertDeploy s r := by
  have h := execInsertDeploy_any s r
  generalize execInsertDeploy s r = s1 at h ⊢
  unfold execInsertDeploy
  rw [if_pos h]

theorem execInsertCode_idem (s : Store) (r : ContractDeployRecord) :
    execInsertCode (execInsertCode s r) r = execInsertCode s r := by
  have h := execInsertCode_any s r
  generalize execInsertCode s r = s1 at h ⊢
  unfold execInsertCode
  rw [if_pos h]

theorem execInsertDeploy_code (s : Store) (r : ContractDeployRecord) :
    (execInsertDeploy s r).code = s.code := by
  unfold execInsertDeploy; split <;> rfl

theorem execInsertCode_deploy (s : Store) (r : ContractDeployRecord) :
    (execInsertCode s r).deploy = s.deploy := by
  unfold execInsertCode; split <;> rfl

theorem execInsertDeploy_keyed (s : Store) (r : ContractDeployRecord) (h : s.Keyed) :
    (execInsertDeploy s r).Keyed := by
  unfold execInsertDeploy
  split
  · exact h
  · rename_i hno
    refine ⟨?_, h.2⟩
    simp only [List.map_append, List.map_cons, List.map_nil]
    rw [List.nodup_append]
    refine ⟨h.1, by simp, ?_⟩
    intro a ha hb
    simp only [List.mem_singleton] at hb
    apply hno
    obtain ⟨row, hrow, hkey⟩ := List.mem_map.mp ha
    rw [List.any_eq_true]
    exact ⟨row, hrow, by simp [hkey, hb, deployRowOf]⟩

theorem execInsertCode_keyed (s : Store) (r : ContractDeployRecord) (h : s.Keyed) :
    (execInsertCode s r).Keyed := by
  unfold execInsertCode
  split
  · exact h
  · rename_i hno
    refine ⟨h.1, ?_⟩
    simp only [List.map_append, List.map_cons, List.map_nil]
    rw [List.nodup_append]
    refine ⟨h.2, by simp, ?_⟩
    intro a ha hb
    simp only [List.mem_singleton] at hb
    apply hno
    obtain ⟨row, hrow, hkey⟩ := List.mem_map.mp ha
    rw [List.any_eq_true]
    exact ⟨row, hrow, by simp [hkey, hb]⟩

theorem Store.empty_keyed : Store.empty.Keyed := by
  simp [Store.Keyed, Store.empty]

theorem execInsertDeploy_count (s : Store) (r : ContractDeployRecord) (h : s.Keyed) :
    (execInsertDeploy s r).deployCount r.ContractAddress = 1 := by
  have hle := countP_key_le_one DeployRow.contract_address (execInsertDeploy s r).deploy
    r.ContractAddress (execInsertDeploy_keyed s r h).1
  have hpos := countP_key_pos DeployRow.contract_address (execInsertDeploy s r).deploy
    r.ContractAddress (execInsertDeploy_any s r)
  unfold Store.deployCount
  omega

theorem execInsertCode_count (s : Store) (r : ContractDeployRecord) (h : s.Keyed) :
    (execInsertCode s r).codeCount r.Codehash = 1 := by
  have hle := countP_key_le_one CodeRow.codehash (execInsertCode s r).code
    r.Codehash (execInsertCode_keyed s r h).2
  have hpos := countP_key_pos CodeRow.codehash (execInsertCode s r).code
    r.Codehash (execInsertCode_any s r)
  unfold Store.codeCount
  omega

theorem InsertOneContract_healthy (s : Store) (r : ContractDeployRecord) :
    InsertOneContract DbFaults.healthy s r = .ok (execInsertCode (execInsertDeploy s r) r) := rfl

theorem insert_twice_eq (s : Store) (r : ContractDeployRecord) :
    execInsertCode (execInsertDeploy (execInsertCode (execInsertDeploy s r) r) r) r =
      execInsertCode (execInsertDeploy s r) r := by
  have h : execInsertDeploy (execInsertCode (execInsertDeploy s r) r) r =
      execInsertCode (execInsertDeploy s r) r := by
    have hany := execInsertDeploy_any s r
    rw [← execInsertCode_deploy (execInsertDeploy s r) r] at hany
    generalize execInsertCode (execInsertDeploy s r) r = s2 at hany ⊢
    unfold execInsertDeploy
    rw [if_pos hany]
  rw [h, execInsertCode_idem]

/-! ## Idempotent insert and dedup by content -/

/-- C1. On a pool that answers, for every store `s` whose two tables are keyed
(unique contract address, unique code hash) and every record `r`,
`InsertOneContract` returns a store `s1`; applying it again to `s1` returns
`s1` unchanged; and `s1` holds exactly one deployment row with
`r.ContractAddress` and exactly one code-body row with `r.Codehash`. -/
theorem insert_idempotent (s : Store) (r : ContractDeployRecord) (h : s.Keyed) :
    ∃ s1, InsertOneContract DbFaults.healthy s r = .ok s1 ∧
      InsertOneContract DbFaults.healthy s1 r = .ok s1 ∧
      s1.deployCount r.ContractAddress = 1 ∧ s1.codeCount r.Codehash = 1 := by
  refine ⟨execInsertCode (execInsertDeploy s r) r, rfl, ?_, ?_, ?_⟩
  · rw [InsertOneContract_healthy, insert_twice_eq]
  · have := execInsertDeploy_count s r h
    unfold Store.deployCount at this ⊢
    rw [execInsertCode_deploy]
    exact this
  · exact execInsertCode_count _ r (execInsertDeploy_keyed s r h)

/-- C1 at the store that already holds `recB`, which shares the code hash of
`recA`. -/
theorem insert_idempotent_witness :
    (execInsertCode (execInsertDeploy Store.empty recB) recB).Keyed ∧
    ∃ s1, InsertOneContract DbFaults.healthy
        (execInsertCode (execInsertDeploy Store.empty recB) recB) recA = .ok s1 ∧
      InsertOneContract DbFaults.healthy s1 recA = .ok s1 ∧
      s1.deployCount recA.ContractAddress = 1 ∧ s1.codeCount recA.Codehash = 1 :=
  ⟨execInsertCode_keyed _ _ (execInsertDeploy_keyed _ _ Store.empty_keyed),
   insert_idempotent _ recA
     (execInsertCode_keyed _ _ (execInsertDeploy_keyed _ _ Store.empty_keyed))⟩

/-- C7. From the empty store, on a pool that answers, two records with
different contract addresses and the same bytecode and code hash: after
`InsertOneContract r1` then `InsertOneContract r2` the deployment table is
exactly the two rows of `r1` and `r2` (one row for each address) and the
code-body table is the single row `(r1.Codehash, r1.Bytecode)`. -/
theorem dedup_by_content (r1 r2 : ContractDeployRecord)
    (haddr : r1.ContractAddress ≠ r2.ContractAddress)
    (hcode : r1.Bytecode = r2.Bytecode) (hhash : r1.Codehash = r2.Codehash) :
    ∃ s1 s2, InsertOneContract DbFaults.healthy Store.empty r1 = .ok s1 ∧
      InsertOneContract DbFaults.healthy s1 r2 = .ok s2 ∧
      s2.deploy = [deployRowOf r1, deployRowOf r2] ∧
      s2.deploy.length = 2 ∧
      s2.deployCount r1.ContractAddress = 1 ∧ s2.deployCount r2.ContractAddress = 1 ∧
      s2.code = [⟨r2.Codehash, r2.Bytecode⟩] ∧ s2.code.length = 1 ∧
      s2.codeCount r2.Codehash = 1 := by
  have hne : ¬ (r2.ContractAddress = r1.ContractAddress) := fun h => haddr h.symm
  refine ⟨_, _, rfl, rfl, ?_⟩
  simp [execInsertDeploy, execInsertCode, Store.empty, deployRowOf, Store.deployCount,
    Store.codeCount, List.countP_cons, haddr, hne, hcode, hhash]

/-- C7 at `recA` and `recB`. -/
theorem dedup_by_content_witness :
    recA.ContractAddress ≠ recB.ContractAddress ∧ recA.Bytecode = recB.Bytecode ∧
    recA.Codehash = recB.Codehash ∧
    ∃ s1 s2, InsertOneContract DbFaults.healthy Store.empty recA = .ok s1 ∧
      InsertOneContract DbFaults.healthy s1 recB = .ok s2 ∧
      s2.deploy = [deployRowOf recA, deployRowOf recB] ∧
      s2.deploy.length = 2 ∧
      s2.deployCount recA.ContractAddress = 1 ∧ s2.deployCount recB.ContractAddress = 1 ∧
      s2.code = [⟨recB.Codehash, recB.Bytecode⟩] ∧ s2.code.length = 1 ∧
      s2.codeCount recB.Codehash = 1 :=
  ⟨by decide, rfl, rfl, dedup_by_content recA recB (by decide) rfl rfl⟩

/-! ## Resume height, range clamping, dispatch -/

theorem queryLastBlock_eq_none (l : List DeployRow) : queryLastBlock l = none ↔ l = [] := by
  cases l with
  | nil => simp [queryLastBlock]
  | cons a t =>
    simp only [queryLastBlock]
    cases queryLastBlock t <;> simp

theorem queryLastBlock_spec (l : List DeployRow) (m : Int) (h : queryLastBlock l = some m) :
    (∃ row ∈ l, row.block_num = m) ∧ ∀ row ∈ l, row.block_num ≤ m := by
  induction l generalizing m with
  | nil => simp [queryLastBlock] at h
  | cons a t ih =>
    simp only [queryLastBlock] at h
    cases hq : queryLastBlock t with
    | none =>
      rw [hq] at h
      have ht : t = [] := (queryLastBlock_eq_none t).mp hq
      subst ht
      simp only [Option.some.injEq] at h
      subst h
      simp
    | some m1 =>
      rw [hq] at h
      simp only [Option.some.injEq] at h
      obtain ⟨⟨row, hrow, hrm⟩, hall⟩ := ih m1 hq
      subst h
      constructor
      · rcases le_total a.block_num m1 with hle | hle
        · exact ⟨row, List.mem_cons_of_mem _ hrow, by rw [hrm, max_eq_right hle]⟩
        · exact ⟨a, List.mem_cons_self _ _, by rw [max_eq_left hle]⟩
      · intro r hr
        rcases List.mem_cons.mp hr with rfl | hr
        · exact le_max_left _ _
        · exact le_trans (hall r hr) (le_max_right _ _)

theorem queryLastBlock_of_isMax (s : Store) (H : Int) (h : IsMaxBlock s H) :
    queryLastBlock s.deploy = some H := by
  obtain ⟨⟨row, hrow, hrH⟩, hall⟩ := h
  cases hq : queryLastBlock s.deploy with
  | none =>
    rw [queryLastBlock_eq_none] at hq
    rw [hq] at hrow
    simp at hrow
  | some m =>
    obtain ⟨⟨row1, hrow1, hr1⟩, hall1⟩ := queryLastBlock_spec _ _ hq
    have h1 : m ≤ H := hr1 ▸ hall row1 hrow1
    have h2 : H ≤ m := hrH ▸ hall1 row hrow
    rw [le_antisymm h1 h2]

theorem wrapInt64_of_in (x : Int) (h : InInt64 x) : wrapInt64 x = x := by
  unfold InInt64 at h
  unfold wrapInt64 toInt64 toUint64
  norm_num at h ⊢
  omega

theorem toInt64_of_lt (c : Nat) (h : c < 2 ^ 63) : toInt64 c = c := by
  unfold toInt64
  norm_num at h ⊢
  omega

theorem toInt64_in (c : Nat) : InInt64 (toInt64 c) := by
  unfold InInt64 toInt64
  norm_num
  split <;> omega

theorem clampEnd_in (end_ : Int) (c : Nat) (h : InInt64 end_) : InInt64 (clampEnd end_ c) := by
  unfold clampEnd
  split
  · exact toInt64_in c
  · exact h

theorem clampEnd_le (end_ : Int) (c : Nat) (h : InInt64 end_) (hc : c < 2 ^ 63) :
    clampEnd end_ c ≤ c := by
  unfold clampEnd
  split
  · rw [toInt64_of_lt c hc]
  · rename_i hgt
    unfold InInt64 at h
    unfold toUint64 at hgt
    norm_num at h hc hgt
    omega

theorem clampEnd_of_gt (end_ : Int) (c : Nat) (h : InInt64 end_) (hc : c < 2 ^ 63)
    (hgt : (c : Int) < end_) : clampEnd end_ c = c := by
  unfold clampEnd
  rw [if_pos, toInt64_of_lt c hc]
  unfold InInt64 at h
  unfold toUint64
  norm_num at h hc ⊢
  omega

theorem scanLoop_lt (stats : Int → Except Abort (Nat × Nat)) (fuel : Nat) (a e i : Int)
    (hi : i ∈ (scanLoop stats fuel a e).1) : i < e := by
  induction fuel generalizing a with
  | zero => simp [scanLoop] at hi
  | succ n ih =>
    unfold scanLoop at hi
    split at hi
    · rename_i hae
      split at hi
      · simp at hi
      · simp only [List.mem_cons] at hi
        rcases hi with rfl | hi
        · exact hae
        · exact ih _ hi
    · simp at hi

theorem scanLoop_ge (stats : Int → Except Abort (Nat × Nat)) (fuel : Nat) (a e i : Int)
    (ha : InInt64 a) (he : InInt64 e) (hi : i ∈ (scanLoop stats fuel a e).1) : a ≤ i := by
  induction fuel generalizing a with
  | zero => simp [scanLoop] at hi
  | succ n ih =>
    unfold scanLoop at hi
    split at hi
    · rename_i hae
      have hin : InInt64 (a + 1) := by
        unfold InInt64 at ha he ⊢
        omega
      rw [wrapInt64_of_in _ hin] at hi
      split at hi
      · simp at hi
      · simp only [List.mem_cons] at hi
        rcases hi with rfl | hi
        · exact le_refl _
        · have := ih _ hin hi
          omega
    · simp at hi

theorem scanLoop_mem (stats : Int → Except Abort (Nat × Nat))
    (hstats : ∀ j, ∃ v, stats j = .ok v) (fuel : Nat) (a e i : Int)
    (ha : InInt64 a) (he : InInt64 e) (hfuel : (e - a).toNat ≤ fuel) :
    i ∈ (scanLoop stats fuel a e).1 ↔ a ≤ i ∧ i < e := by
  induction fuel generalizing a with
  | zero =>
    simp only [scanLoop, List.not_mem_nil, false_iff]
    omega
  | succ n ih =>
    unfold scanLoop
    split
    · rename_i hae
      have hin : InInt64 (a + 1) := by
        unfold InInt64 at ha he ⊢
        omega
      rw [wrapInt64_of_in _ hin]
      have hok : ∃ v, (if a % 100000 = 0 then stats a else .ok (0, 0)) = .ok v := by
        split
        · exact hstats a
        · exact ⟨_, rfl⟩
      obtain ⟨v, hv⟩ := hok
      rw [hv]
      simp only [List.mem_cons]
      rw [ih (a + 1) hin (by omega)]
      omega
    · simp only [List.not_mem_nil, false_iff]
      omega

theorem scanLoop_fuel (stats : Int → Except Abort (Nat × Nat)) (fuel extra : Nat)
    (a e : Int) (ha : InInt64 a) (he : InInt64 e) (hfuel : (e - a).toNat ≤ fuel) :
    scanLoop stats (fuel + extra) a e = scanLoop stats fuel a e := by
  induction fuel generalizing a with
  | zero =>
    have hea : ¬ a < e := by omega
    cases extra with
    | zero => rfl
    | succ m =>
      rw [Nat.zero_add]
      simp [scanLoop, hea]
  | succ n ih =>
    rw [Nat.add_right_comm]
    unfold scanLoop
    split
    · have hin : InInt64 (a + 1) := by
        unfold InInt64 at ha he ⊢
        omega
      rw [wrapInt64_of_in _ hin, ih (a + 1) hin (by omega)]
    · rfl

theorem DownloadContractsEVM_answers (env : ScanEnv) (s : Store) (start end_ : Int) (c : Nat)
    (H : Int) (henv : env.Answers c) (hH : IsMaxBlock s H) :
    DownloadContractsEVM env s start end_ =
      ⟨some (H, clampEnd end_ c),
       (scanLoop env.stats (clampEnd end_ c - H).toNat H (clampEnd end_ c)).1,
       (scanLoop env.stats (clampEnd end_ c - H).toNat H (clampEnd end_ c)).2⟩ := by
  obtain ⟨h1, h2, h3, h4, h5⟩ := henv
  simp [DownloadContractsEVM, LastBlockNumber, h1, h2, h3, h4, h5,
    queryLastBlock_of_isMax s H hH]

theorem DownloadContractsEVM_cases (env : ScanEnv) (s : Store) (start end_ : Int) :
    ((DownloadContractsEVM env s start end_).range = none ∧
      (DownloadContractsEVM env s start end_).dispatched = []) ∨
    ∃ c H, env.blockNumber = .ok c ∧ queryLastBlock s.deploy = some H ∧
      (DownloadContractsEVM env s start end_).range = some (H, clampEnd end_ c) ∧
      (DownloadContractsEVM env s start end_).dispatched =
        (scanLoop env.stats (clampEnd end_ c - H).toNat H (clampEnd end_ c)).1 := by
  unfold DownloadContractsEVM LastBlockNumber
  cases env.dial with
  | some _ => simp
  | none =>
    cases hb : env.blockNumber with
    | error _ => simp
    | ok c =>
      cases env.connect with
      | some _ => simp
      | none =>
        cases env.db.acquire with
        | some _ => simp
        | none =>
          cases env.db.first with
          | some _ => simp
          | none =>
            cases hq : queryLastBlock s.deploy with
            | none => simp
            | some H => simp

/-- C2, as stated, fails.  With the rows of `recA` and `recB` stored (maximum
height 5), the endpoint at height 100 and requested end 10, the heights
dispatched are 5 to 9: height 5 is dispatched and is not strictly greater
than the maximum. -/
theorem resume_strict_counterexample :
    IsMaxBlock storeAB 5 ∧
    (DownloadContractsEVM (ScanEnv.healthy 100) storeAB 0 10).dispatched = [5, 6, 7, 8, 9] ∧
    ¬ ∀ i ∈ (DownloadContractsEVM (ScanEnv.healthy 100) storeAB 0 10).dispatched, 5 < i := by
  refine ⟨⟨⟨deployRowOf recA, by decide, by decide⟩, by decide⟩, by decide, by decide⟩

/-- C2, amended.  For every store whose deployment rows have maximum block
number `H` (block numbers and the requested end being `int64` values), every
height dispatched by `DownloadContractsEVM` is at least `H` and below the
resolved end; when the collaborators answer, the heights dispatched are
exactly those from `H` on, `H` itself included, up to the resolved end. -/
theorem resume_dispatch (env : ScanEnv) (s : Store) (start end_ H : Int)
    (hH : IsMaxBlock s H) (hH64 : InInt64 H) (hend : InInt64 end_) :
    (∀ i ∈ (DownloadContractsEVM env s start end_).dispatched, H ≤ i) ∧
    (∀ c, env.Answers c → (∀ j, ∃ v, env.stats j = .ok v) →
      ∀ i, i ∈ (DownloadContractsEVM env s start end_).dispatched ↔
        H ≤ i ∧ i < clampEnd end_ c) := by
  constructor
  · intro i hi
    rcases DownloadContractsEVM_cases env s start end_ with ⟨_, h0⟩ | ⟨c, H1, _, hq, _, hd⟩
    · rw [h0] at hi
      simp at hi
    · rw [queryLastBlock_of_isMax s H hH] at hq
      simp only [Option.some.injEq] at hq
      subst hq
      rw [hd] at hi
      exact scanLoop_ge _ _ _ _ _ hH64 (clampEnd_in _ _ hend) hi
  · intro c henv hstats i
    rw [DownloadContractsEVM_answers env s start end_ c H henv hH]
    exact scanLoop_mem _ hstats _ _ _ _ hH64 (clampEnd_in _ _ hend) (le_refl _)

/-- C2 amended, at `storeAB`, endpoint height 100, requested end 10. -/
theorem resume_dispatch_witness :
    IsMaxBlock storeAB 5 ∧ InInt64 5 ∧ InInt64 10 ∧
    (∀ i ∈ (DownloadContractsEVM (ScanEnv.healthy 100) storeAB 0 10).dispatched, (5 : Int) ≤ i) ∧
    (∀ c, (ScanEnv.healthy 100).Answers c →
      (∀ j, ∃ v, (ScanEnv.healthy 100).stats j = .ok v) →
      ∀ i, i ∈ (DownloadContractsEVM (ScanEnv.healthy 100) storeAB 0 10).dispatched ↔
        5 ≤ i ∧ i < clampEnd 10 c) :=
  ⟨⟨⟨deployRowOf recA, by decide, by decide⟩, by decide⟩, by decide, by decide,
   resume_dispatch (ScanEnv.healthy 100) storeAB 0 10 5
     ⟨⟨deployRowOf recA, by decide, by decide⟩, by decide⟩ (by decide) (by decide)⟩

/-- C3, as stated, fails.  On the empty store, with collaborators that
answer, a caller-supplied start of 3 and end 10: the run stops with the fatal
error of `LastBlockNumber`, no range is resolved (so the start is not the
caller's 3) and nothing is dispatched. -/
theorem resume_default_counterexample :
    Store.empty.deploy = [] ∧ (ScanEnv.healthy 100).Answers 100 ∧
    (DownloadContractsEVM (ScanEnv.healthy 100) Store.empty 3 10).abort =
      some (.fatal "Failed to query the last block number") ∧
    (DownloadContractsEVM (ScanEnv.healthy 100) Store.empty 3 10).dispatched = [] ∧
    ¬ ∃ e, (DownloadContractsEVM (ScanEnv.healthy 100) Store.empty 3 10).range = some (3, e) := by
  refine ⟨rfl, ⟨rfl, rfl, rfl, rfl, rfl⟩, by decide, by decide, ?_⟩
  rintro ⟨e, he⟩
  have h0 : (DownloadContractsEVM (ScanEnv.healthy 100) Store.empty 3 10).range = none := by
    decide
  rw [h0] at he
  exact Option.noConfusion he

/-- C3, amended.  With collaborators that answer: when at least one deployment
row exists, the start height of the scan is the maximum `block_num` among the
stored rows, whatever start the caller supplied; when no row exists, the run
stops with the fatal error of `LastBlockNumber`, with no range and no height
dispatched. -/
theorem resume_height (env : ScanEnv) (s : Store) (start end_ : Int) (c : Nat)
    (henv : env.Answers c) :
    (∀ H, IsMaxBlock s H →
      (DownloadContractsEVM env s start end_).range = some (H, clampEnd end_ c)) ∧
    (s.deploy ≠ [] → ∃ H, IsMaxBlock s H) ∧
    (s.deploy = [] →
      (DownloadContractsEVM env s start end_).range = none ∧
      (DownloadContractsEVM env s start end_).dispatched = [] ∧
      (DownloadContractsEVM env s start end_).abort =
        some (.fatal "Failed to query the last block number")) := by
  refine ⟨?_, ?_, ?_⟩
  · intro H hH
    rw [DownloadContractsEVM_answers env s start end_ c H henv hH]
  · intro hne
    cases hq : queryLastBlock s.deploy with
    | none => exact absurd ((queryLastBlock_eq_none _).mp hq) hne
    | some H => exact ⟨H, queryLastBlock_spec _ _ hq⟩
  · intro hnil
    obtain ⟨h1, h2, h3, h4, h5⟩ := henv
    simp [DownloadContractsEVM, LastBlockNumber, h1, h2, h3, h4, h5, hnil, queryLastBlock]

/-- C3 amended, at `storeAB` with caller-supplied start 0. -/
theorem resume_height_witness :
    (ScanEnv.healthy 100).Answers 100 ∧
    (DownloadContractsEVM (ScanEnv.healthy 100) storeAB 0 10).range = some (5, 10) :=
  ⟨⟨rfl, rfl, rfl, rfl, rfl⟩,
   ((resume_height (ScanEnv.healthy 100) storeAB 0 10 100 ⟨rfl, rfl, rfl, rfl, rfl⟩).1 5
     ⟨⟨deployRowOf recA, by decide, by decide⟩, by decide⟩).trans (by decide)⟩

/-- C4.  For every requested end (an `int64`) and every current height
`c < 2^63` reported by the endpoint: if `end > c` the resolved end is `c`; the
range the loop runs with ends at the resolved end; and in every case every
dispatched height is below `c`. -/
theorem range_clamping (end_ : Int) (c : Nat) (hend : InInt64 end_) (hc : c < 2 ^ 63) :
    ((c : Int) < end_ → clampEnd end_ c = c) ∧
    ∀ (env : ScanEnv) (s : Store) (start : Int), env.blockNumber = .ok c →
      (∀ r, (DownloadContractsEVM env s start end_).range = some r → r.2 = clampEnd end_ c) ∧
      ∀ i ∈ (DownloadContractsEVM env s start end_).dispatched, i < c := by
  refine ⟨clampEnd_of_gt end_ c hend hc, ?_⟩
  intro env s start hb
  rcases DownloadContractsEVM_cases env s start end_ with ⟨hr, h0⟩ | ⟨c1, H, hb1, _, hr, hd⟩
  · rw [hr, h0]
    simp
  · rw [hb] at hb1
    simp only [Except.ok.injEq] at hb1
    subst hb1
    rw [hr, hd]
    constructor
    · intro r h
      simp only [Option.some.injEq] at h
      rw [← h]
    · intro i hi
      exact lt_of_lt_of_le (scanLoop_lt _ _ _ _ _ hi) (clampEnd_le end_ c hend hc)

/-- C4 at requested end 10 and endpoint height 7, with `storeAB`: the heights
dispatched are 5 and 6. -/
theorem range_clamping_witness :
    InInt64 10 ∧ 7 < 2 ^ 63 ∧ clampEnd 10 7 = 7 ∧
    (DownloadContractsEVM (ScanEnv.healthy 7) storeAB 0 10).dispatched = [5, 6] ∧
    ∀ i ∈ (DownloadContractsEVM (ScanEnv.healthy 7) storeAB 0 10).dispatched, i < ((7 : Nat) : Int) :=
  ⟨by decide, by decide, (range_clamping 10 7 (by decide) (by decide)).1 (by decide),
   by decide,
   ((range_clamping 10 7 (by decide) (by decide)).2 (ScanEnv.healthy 7) storeAB 0 rfl).2⟩

/-! ## Unit conversion and the balance filter -/

theorem roundHalfEven_near (x : ℚ) : |(roundHalfEven x : ℚ) - x| ≤ 1 / 2 := by
  have h1 : ((Rat.floor x : Int) : ℚ) ≤ x := Int.floor_le x
  have h2 : x < ((Rat.floor x : Int) : ℚ) + 1 := Int.lt_floor_add_one x
  unfold roundHalfEven
  simp only
  rw [abs_le]
  split
  · constructor <;> linarith
  · split
    · push_cast
      constructor <;> linarith
    · rename_i ha hb
      have hr : x - ((Rat.floor x : Int) : ℚ) = 1 / 2 := le_antisymm (not_lt.mp hb) (not_lt.mp ha)
      split
      · constructor <;> linarith
      · push_cast
        constructor <;> linarith

theorem floorLog2_spec (x : ℚ) (hx : x ≠ 0) :
    (2 : ℚ) ^ floorLog2 x ≤ |x| ∧ |x| < (2 : ℚ) ^ (floorLog2 x + 1) := by
  have hn : x.num.natAbs ≠ 0 := by
    rw [Ne, Int.natAbs_eq_zero, Rat.num_eq_zero]
    exact hx
  have hd : x.den ≠ 0 := x.den_nz
  have hdpos : (0 : ℚ) < (x.den : ℚ) := by exact_mod_cast Nat.pos_of_ne_zero hd
  have habs : |x| = (x.num.natAbs : ℚ) / (x.den : ℚ) := by
    conv_lhs => rw [← Rat.num_div_den x]
    rw [abs_div, Nat.abs_cast, Nat.cast_natAbs, Int.cast_abs]
  have hL1 : ((2 : ℚ) ^ (Nat.log2 x.num.natAbs)) ≤ (x.num.natAbs : ℚ) := by
    exact_mod_cast Nat.log2_self_le hn
  have hL2 : (x.num.natAbs : ℚ) < (2 : ℚ) ^ (Nat.log2 x.num.natAbs + 1) := by
    exact_mod_cast (Nat.lt_log2_self (n := x.num.natAbs))
  have hM1 : ((2 : ℚ) ^ (Nat.log2 x.den)) ≤ (x.den : ℚ) := by
    exact_mod_cast Nat.log2_self_le hd
  have hM2 : (x.den : ℚ) < (2 : ℚ) ^ (Nat.log2 x.den + 1) := by
    exact_mod_cast (Nat.lt_log2_self (n := x.den))
  unfold floorLog2
  simp only
  generalize Nat.log2 x.num.natAbs = L at hL1 hL2 ⊢
  generalize Nat.log2 x.den = M at hM1 hM2 ⊢
  have hpL : (0 : ℚ) < 2 ^ L := by positivity
  have hpM : (0 : ℚ) < 2 ^ M := by positivity
  have e0 : (2 : ℚ) ^ ((L : Int) - (M : Int)) = 2 ^ L / 2 ^ M := by
    rw [zpow_sub₀ (by norm_num), zpow_natCast, zpow_natCast]
  have e1 : (2 : ℚ) ^ ((L : Int) - (M : Int) + 1) = 2 ^ (L + 1) / 2 ^ M := by
    rw [zpow_add₀ (by norm_num), e0, zpow_one, pow_succ]
    ring
  have e2 : (2 : ℚ) ^ ((L : Int) - (M : Int) - 1) = 2 ^ L / 2 ^ (M + 1) := by
    rw [zpow_sub₀ (by norm_num), e0, zpow_one, pow_succ]
    field_simp
  rw [habs]
  split
  · rename_i h
    refine ⟨h, ?_⟩
    rw [e1, div_lt_div_iff₀ hdpos hpM]
    calc (x.num.natAbs : ℚ) * 2 ^ M ≤ (x.num.natAbs : ℚ) * x.den :=
          mul_le_mul_of_nonneg_left hM1 (by positivity)
      _ < 2 ^ (L + 1) * x.den := mul_lt_mul_of_pos_right hL2 hdpos
  · rename_i h
    rw [sub_add_cancel]
    refine ⟨?_, not_le.mp h⟩
    rw [e2, div_le_div_iff₀ (by positivity) hdpos]
    calc (2 : ℚ) ^ L * x.den ≤ 2 ^ L * 2 ^ (M + 1) :=
          mul_le_mul_of_nonneg_left (le_of_lt hM2) (by positivity)
      _ ≤ (x.num.natAbs : ℚ) * 2 ^ (M + 1) := mul_le_mul_of_nonneg_right hL1 (by positivity)

theorem roundToPrec_near (prec : Nat) (x : ℚ) (hx : x ≠ 0) :
    |roundToPrec prec x - x| ≤ (2 : ℚ) ^ (floorLog2 x - ((prec : Int) - 1)) / 2 := by
  unfold roundToPrec
  rw [if_neg hx]
  simp only
  generalize floorLog2 x - ((prec : Int) - 1) = e
  have hpos : (0 : ℚ) < 2 ^ e := zpow_pos (by norm_num) e
  have hnear := roundHalfEven_near (x / 2 ^ e)
  have hsplit : (roundHalfEven (x / 2 ^ e) : ℚ) * 2 ^ e - x =
      ((roundHalfEven (x / 2 ^ e) : ℚ) - x / 2 ^ e) * 2 ^ e := by
    field_simp
  rw [hsplit, abs_mul, abs_of_pos hpos]
  calc |(roundHalfEven (x / 2 ^ e) : ℚ) - x / 2 ^ e| * 2 ^ e ≤ 1 / 2 * 2 ^ e :=
        mul_le_mul_of_nonneg_right hnear (le_of_lt hpos)
    _ = 2 ^ e / 2 := by ring

theorem roundHalfEven_intCast (m : Int) : roundHalfEven (m : ℚ) = m := by
  simp [roundHalfEven, Rat.floor_def']

theorem floorLog2_natCast_lt (p n : Nat) (hn : n ≠ 0) (h : n < 2 ^ p) :
    floorLog2 (n : ℚ) < p := by
  have hlog : n.log2 < p := (Nat.log2_lt hn).mpr h
  unfold floorLog2
  simp only [Rat.num_natCast, Int.natAbs_ofNat, Rat.den_natCast]
  have h1 : Nat.log2 1 = 0 := by
    have : Nat.log2 1 < 1 := (Nat.log2_lt (by decide)).mpr (by decide)
    omega
  rw [h1]
  split <;> omega

theorem roundToPrec_natCast (p n : Nat) (h : n < 2 ^ p) : roundToPrec p (n : ℚ) = n := by
  by_cases hn : n = 0
  · simp [roundToPrec, hn]
  · have hlt := floorLog2_natCast_lt p n hn h
    have hx : (n : ℚ) ≠ 0 := by exact_mod_cast hn
    unfold roundToPrec
    rw [if_neg hx]
    simp only
    generalize he : floorLog2 (n : ℚ) - ((p : Int) - 1) = e
    have hle : e ≤ 0 := by omega
    obtain ⟨d, rfl⟩ : ∃ d : Nat, e = -(d : Int) := ⟨(-e).toNat, by omega⟩
    have h2 : ((2 : ℚ) ^ (-(d : Int))) ≠ 0 := zpow_ne_zero _ (by norm_num)
    have hq : (n : ℚ) / (2 : ℚ) ^ (-(d : Int)) = (((n * 2 ^ d : Nat) : Int) : ℚ) := by
      rw [zpow_neg, zpow_natCast]
      push_cast
      field_simp
    rw [hq, roundHalfEven_intCast, zpow_neg, zpow_natCast]
    push_cast
    field_simp

theorem WeiToEther_whole_units (k : Nat) (h : k * 10 ^ 18 < 2 ^ 236) :
    WeiToEther (some ((k : Int) * 10 ^ 18)) = .ok (.fin (k : ℚ)) := by
  have h1 : (((k : Int) * 10 ^ 18 : Int) : ℚ) = ((k * 10 ^ 18 : Nat) : ℚ) := by norm_num
  have hk : k < 2 ^ 236 := lt_of_le_of_lt (Nat.le_mul_of_pos_right k (by norm_num)) h
  unfold WeiToEther
  simp only
  rw [h1, roundToPrec_natCast 236 _ h]
  have h2 : ((k * 10 ^ 18 : Nat) : ℚ) / paramsEther = (k : ℚ) := by
    unfold paramsEther
    push_cast
    exact mul_div_cancel_right₀ _ (by norm_num)
  rw [h2, roundToPrec_natCast 236 k hk]

theorem Cmp_eq_one_iff (x y : BigFloat) : x.Cmp y = 1 ↔ y.Below x := by
  cases x with
  | fin a =>
    cases y with
    | fin b =>
      simp only [BigFloat.Cmp, BigFloat.Below]
      split
      · rename_i h
        have hba : ¬ b < a := not_lt.mpr (le_of_lt h)
        simp [hba]
      · rename_i h
        split
        · rename_i h1
          simp [h1]
        · rename_i h1
          simp only [true_iff]
          exact lt_of_le_of_ne (not_lt.mp h) (fun h2 => h1 h2.symm)
    | inf neg => cases neg <;> simp [BigFloat.Cmp, BigFloat.Below]
  | inf n1 =>
    cases y with
    | fin b => cases n1 <;> simp [BigFloat.Cmp, BigFloat.Below]
    | inf n2 => cases n1 <;> cases n2 <;> simp [BigFloat.Cmp, BigFloat.Below]

theorem Cmp_self (x : BigFloat) : x.Cmp x = 0 := by
  cases x with
  | fin a => simp [BigFloat.Cmp]
  | inf n => simp [BigFloat.Cmp]

theorem balanceFilter_pos (T : Float64) (w : Int) (hT : T.gtZero = true) :
    ∃ y, NewFloat T = .ok y ∧
      balanceFilter T (some w) = .ok (decide
        ((BigFloat.fin (roundToPrec 236 (roundToPrec 236 (w : ℚ) / paramsEther))).Cmp y = 1)) := by
  cases T with
  | finite q => exact ⟨_, rfl, by simp [balanceFilter, NewFloat, WeiToEther, hT]⟩
  | posInf => exact ⟨_, rfl, by simp [balanceFilter, NewFloat, WeiToEther, hT]⟩
  | negInf => simp [Float64.gtZero] at hT
  | nan => simp [Float64.gtZero] at hT

/-- C8.  `WeiToEther(10^18)` is exactly 1, and for every `k ≥ 0` with
`k * 10^18 < 2^236`, `WeiToEther(k * 10^18)` is exactly `k`: both the
conversion of the integer and the quotient by `10^18` are exact at 236 bits. -/
theorem unit_conversion_exact :
    WeiToEther (some (10 ^ 18)) = .ok (.fin 1) ∧
    ∀ k : Nat, k * 10 ^ 18 < 2 ^ 236 →
      WeiToEther (some ((k : Int) * 10 ^ 18)) = .ok (.fin (k : ℚ)) := by
  refine ⟨?_, WeiToEther_whole_units⟩
  have := WeiToEther_whole_units 1 (by norm_num)
  simpa using this

/-- C8 at two ether: `WeiToEther(2 * 10^18) = 2`. -/
theorem unit_conversion_exact_witness :
    2 * 10 ^ 18 < 2 ^ 236 ∧
    WeiToEther (some (((2 : Nat) : Int) * 10 ^ 18)) = .ok (.fin ((2 : Nat) : ℚ)) :=
  ⟨by norm_num, unit_conversion_exact.2 2 (by norm_num)⟩

/-- C5.  For every threshold `T > 0` and every non-negative balance `w` in
wei, `WeiToEther(w)` and `big.NewFloat(T)` return values `x` and `y`, the
filter returns without abort, and the hit branch is taken if and only if
`x.Cmp(y) == 1`, which holds if and only if the value of `x` is strictly
greater than the value of `y`; when `x` equals `y` the contract is not a
hit. -/
theorem balance_filter_strict (T : Float64) (w : Nat) (hT : T.gtZero = true) :
    ∃ x y, WeiToEther (some (w : Int)) = .ok x ∧ NewFloat T = .ok y ∧
      (balanceFilter T (some (w : Int)) = .ok true ∨
        balanceFilter T (some (w : Int)) = .ok false) ∧
      (balanceFilter T (some (w : Int)) = .ok true ↔ x.Cmp y = 1) ∧
      (x.Cmp y = 1 ↔ y.Below x) ∧
      (x = y → balanceFilter T (some (w : Int)) = .ok false) := by
  obtain ⟨y, hy, hf⟩ := balanceFilter_pos T w hT
  refine ⟨_, y, rfl, hy, ?_, ?_, Cmp_eq_one_iff _ _, ?_⟩
  · rw [hf]
    by_cases hc : (BigFloat.fin (roundToPrec 236 (roundToPrec 236 ((w : Int) : ℚ) / paramsEther))).Cmp y = 1
    · left
      rw [decide_eq_true hc]
    · right
      rw [decide_eq_false hc]
  · rw [hf]
    simp
  · intro hxy
    rw [hf, hxy, Cmp_self]
    simp

/-- C5 at threshold 1 and balances of one and two ether: `WeiToEther(10^18)`
equals the threshold and is no hit; `WeiToEther(2 * 10^18)` exceeds it and
is a hit. -/
theorem balance_filter_strict_witness :
    (Float64.finite 1).gtZero = true ∧
    balanceFilter (.finite 1) (some (10 ^ 18)) = .ok false ∧
    balanceFilter (.finite 1) (some (2 * 10 ^ 18)) = .ok true ∧
    ∃ x y, WeiToEther (some ((10 ^ 18 : Nat) : Int)) = .ok x ∧ NewFloat (.finite 1) = .ok y ∧
      (balanceFilter (.finite 1) (some ((10 ^ 18 : Nat) : Int)) = .ok true ∨
        balanceFilter (.finite 1) (some ((10 ^ 18 : Nat) : Int)) = .ok false) ∧
      (balanceFilter (.finite 1) (some ((10 ^ 18 : Nat) : Int)) = .ok true ↔ x.Cmp y = 1) ∧
      (x.Cmp y = 1 ↔ y.Below x) ∧
      (x = y → balanceFilter (.finite 1) (some ((10 ^ 18 : Nat) : Int)) = .ok false) := by
  have h1 := WeiToEther_whole_units 1 (by norm_num)
  have h2 := WeiToEther_whole_units 2 (by norm_num)
  norm_num at h1 h2
  refine ⟨by simp [Float64.gtZero], ?_, ?_,
    balance_filter_strict (.finite 1) (10 ^ 18) (by simp [Float64.gtZero])⟩
  · simp [balanceFilter, NewFloat, Float64.gtZero, h1, BigFloat.Cmp]
  · simp [balanceFilter, NewFloat, Float64.gtZero, h2, BigFloat.Cmp]

/-! ## The slot protocol -/

theorem countP_set_of_get {α : Type} (p : α → Bool) (l : List α) (i : Nat) (a b : α)
    (h : l.get? i = some a) :
    (l.set i b).countP p + (if p a then 1 else 0) = l.countP p + (if p b then 1 else 0) := by
  induction l generalizing i with
  | nil => simp at h
  | cons x t ih =>
    cases i with
    | zero =>
      simp only [List.get?_cons_zero, Option.some.injEq] at h
      subst h
      simp only [List.set_cons_zero, List.countP_cons]
      omega
    | succ j =>
      simp only [List.get?_cons_succ] at h
      have := ih j h
      simp only [List.set_cons_succ, List.countP_cons]
      omega

/-- The invariant of the protocol: the channel holds one element for each
unit that is in the body after its send and one for each unit that left by
the early return; and it never holds more than its capacity. -/
theorem step_invariant (k : Nat) (c c1 : Sched) (a : Action)
    (hinv : c.slots = c.holders + c.leaked ∧ c.slots ≤ k) (hstep : step k c a = some c1) :
    c1.slots = c1.holders + c1.leaked ∧ c1.slots ≤ k := by
  obtain ⟨h1, h2⟩ := hinv
  unfold Sched.holders Sched.leaked at h1 ⊢
  cases a with
  | spawn =>
    simp only [step, Option.some.injEq] at hstep
    subst hstep
    simp only [List.countP_append, List.countP_cons, List.countP_nil, UnitPC.holding]
    simp only [reduceCtorEq, decide_False, Bool.false_eq_true, if_false]
    omega
  | acquire u =>
    simp only [step] at hstep
    split at hstep
    · rename_i hg
      simp only [Option.some.injEq] at hstep
      subst hstep
      have e1 := countP_set_of_get UnitPC.holding c.units u _ UnitPC.fetching hg.1
      have e2 := countP_set_of_get (fun pc => decide (pc = UnitPC.returnedOnError))
        c.units u _ UnitPC.fetching hg.1
      simp [UnitPC.holding] at e1 e2
      simp only
      omega
    · simp at hstep
  | fetchOk u =>
    simp only [step] at hstep
    split at hstep
    · rename_i hg
      simp only [Option.some.injEq] at hstep
      subst hstep
      have e1 := countP_set_of_get UnitPC.holding c.units u _ UnitPC.processing hg
      have e2 := countP_set_of_get (fun pc => decide (pc = UnitPC.returnedOnError))
        c.units u _ UnitPC.processing hg
      simp [UnitPC.holding] at e1 e2
      simp only
      omega
    · simp at hstep
  | fetchErr u =>
    simp only [step] at hstep
    split at hstep
    · rename_i hg
      simp only [Option.some.injEq] at hstep
      subst hstep
      have e1 := countP_set_of_get UnitPC.holding c.units u _ UnitPC.returnedOnError hg
      have e2 := countP_set_of_get (fun pc => decide (pc = UnitPC.returnedOnError))
        c.units u _ UnitPC.returnedOnError hg
      simp [UnitPC.holding] at e1 e2
      simp only
      omega
    · simp at hstep
  | release u =>
    simp only [step] at hstep
    split at hstep
    · rename_i hg
      simp only [Option.some.injEq] at hstep
      subst hstep
      have e1 := countP_set_of_get UnitPC.holding c.units u _ UnitPC.finished hg.1
      have e2 := countP_set_of_get (fun pc => decide (pc = UnitPC.returnedOnError))
        c.units u _ UnitPC.finished hg.1
      simp [UnitPC.holding] at e1 e2
      simp only
      omega
    · simp at hstep

theorem run_invariant (k : Nat) (acts : List Action) (c c1 : Sched)
    (hinv : c.slots = c.holders + c.leaked ∧ c.slots ≤ k) (hrun : run k c acts = some c1) :
    c1.slots = c1.holders + c1.leaked ∧ c1.slots ≤ k := by
  induction acts generalizing c with
  | nil =>
    simp only [run, Option.some.injEq] at hrun
    subst hrun
    exact hinv
  | cons a rest ih =>
    simp only [run] at hrun
    cases hs : step k c a with
    | none => rw [hs] at hrun; simp at hrun
    | some c2 =>
      rw [hs] at hrun
      exact ih c2 (step_invariant k c c2 a hinv hs) hrun

theorem reachable_invariant (k : Nat) (c : Sched) (h : Reachable k c) :
    c.slots = c.holders + c.leaked ∧ c.slots ≤ k := by
  obtain ⟨acts, hrun⟩ := h
  exact run_invariant k acts Sched.init c (by simp [Sched.init, Sched.holders, Sched.leaked]) hrun

/-- C6.  For every capacity `k` (in particular every `k ≥ 1`) and every
reachable state of the slot protocol, the number of units that hold a slot
is at most `k`, and so is the number of elements in the channel. -/
theorem concurrency_bound (k : Nat) (c : Sched) (h : Reachable k c) :
    c.holders ≤ k ∧ c.slots ≤ k := by
  have := reachable_invariant k c h
  omega

/-- C6 with capacity 2 and three units: two hold a slot, the third waits, and
its send is not enabled. -/
theorem concurrency_bound_witness :
    Reachable 2 ⟨[.processing, .fetching, .spawned], 2⟩ ∧
    step 2 ⟨[.processing, .fetching, .spawned], 2⟩ (.acquire 2) = none ∧
    (Sched.mk [.processing, .fetching, .spawned] 2).holders ≤ 2 ∧
    (Sched.mk [.processing, .fetching, .spawned] 2).slots ≤ 2 :=
  ⟨⟨[.spawn, .spawn, .spawn, .acquire 0, .acquire 1, .fetchOk 0], by decide⟩, by decide,
   concurrency_bound 2 _
     ⟨[.spawn, .spawn, .spawn, .acquire 0, .acquire 1, .fetchOk 0], by decide⟩⟩

/-- C10 at the failing input: capacity 1, one unit whose block fetch fails.
The unit has left the body, no unit holds a slot, and the channel still
holds its element; a second unit can then never send. -/
theorem slot_kept_after_fetch_error :
    run 1 Sched.init [.spawn, .acquire 0, .fetchErr 0] = some ⟨[.returnedOnError], 1⟩ ∧
    (Sched.mk [.returnedOnError] 1).units.all UnitPC.done = true ∧
    (Sched.mk [.returnedOnError] 1).holders = 0 ∧
    (Sched.mk [.returnedOnError] 1).slots = 1 ∧
    run 1 Sched.init [.spawn, .acquire 0, .fetchErr 0, .spawn] =
      some ⟨[.returnedOnError, .spawned], 1⟩ ∧
    step 1 ⟨[.returnedOnError, .spawned], 1⟩ (.acquire 1) = none ∧
    run 1 Sched.init [.spawn, .acquire 0, .fetchOk 0, .release 0] = some ⟨[.finished], 0⟩ := by
  decide

/-! ## Fetch errors of one candidate -/

theorem WeiToEther_zero : WeiToEther (some 0) = .ok (.fin 0) := by
  simp [WeiToEther, roundToPrec]

theorem processTx_receipt_error (keccak256 : List UInt8 → List UInt8) (client : Client)
    (db : DbFaults) (balance : Float64) (printOnly : Bool) (i : Int) (tx : Tx) (w : World)
    (e : String) (h : client.TransactionReceipt tx.Hash = .error e) :
    processTx keccak256 client db balance printOnly i tx w = .ok w := by
  simp [processTx, h]

theorem processBlock_receipt_error (keccak256 : List UInt8 → List UInt8) (client : Client)
    (db : DbFaults) (balance : Float64) (printOnly : Bool) (i : Int) (tx : Tx) (rest : List Tx)
    (w : World) (e : String) (hto : tx.To = none)
    (h : client.TransactionReceipt tx.Hash = .error e) :
    processBlock keccak256 client db balance printOnly i (tx :: rest) w =
      processBlock keccak256 client db balance printOnly i rest w := by
  simp [processBlock, hto, processTx_receipt_error keccak256 client db balance printOnly i tx w e h]

/-- C9 at the failing inputs, for one contract-creation transaction at height
7 and an empty store.  When `CodeAt` fails, a deployment row for the contract
is inserted all the same, with an empty bytecode (threshold 1), and with a
threshold of 0 the contract is also reported and its side file written.  When
`BalanceAt` fails with a nil balance the run panics in `WeiToEther`; when it
fails with a zero balance the row is inserted and, with a threshold of 0, the
contract is reported and its file written.  Only a failing receipt fetch
leaves the world as it was. -/
theorem fetch_error_not_skipped :
    processTx keccakStub clientCodeErr DbFaults.healthy (.finite 1) false 7 txCreate World.empty =
      .ok ⟨⟨[⟨"0xC0", none, "c5d2", 1700000000, "0x01", 7⟩], [⟨"c5d2", ""⟩]⟩, [], []⟩ ∧
    processTx keccakStub clientCodeErr DbFaults.healthy (.finite 0) false 7 txCreate World.empty =
      .ok ⟨⟨[⟨"0xC0", none, "c5d2", 1700000000, "0x01", 7⟩], [⟨"c5d2", ""⟩]⟩,
        ["0xC0"], [("0xC0", "")]⟩ ∧
    processTx keccakStub clientBalanceErrNil DbFaults.healthy (.finite 1) false 7 txCreate
      World.empty = .error (.panic "nil pointer dereference") ∧
    processTx keccakStub clientBalanceErrZero DbFaults.healthy (.finite 0) false 7 txCreate
      World.empty =
      .ok ⟨⟨[⟨"0xC0", none, "c5d2", 1700000000, "0x01", 7⟩], [⟨"c5d2", "6080"⟩]⟩,
        ["0xC0"], [("0xC0", "6080")]⟩ ∧
    processTx keccakStub clientReceiptErr DbFaults.healthy (.finite 0) false 7 txCreate
      World.empty = .ok World.empty := by
  refine ⟨?_, ?_, ?_, ?_, ?_⟩
  · simp [processTx, clientCodeErr, InsertOneContract, DbFaults.healthy, balanceFilter,
      NewFloat, Float64.gtZero, WeiToEther_zero, BigFloat.Cmp, World.empty, Store.empty,
      execInsertDeploy, execInsertCode, deployRowOf, txCreate]
    decide
  · simp [processTx, clientCodeErr, InsertOneContract, DbFaults.healthy, balanceFilter,
      NewFloat, Float64.gtZero, WeiToEther_zero, BigFloat.Cmp, World.empty, Store.empty,
      execInsertDeploy, execInsertCode, deployRowOf, txCreate]
    decide
  · simp [processTx, clientBalanceErrNil, InsertOneContract, DbFaults.healthy, balanceFilter,
      NewFloat, Float64.gtZero, WeiToEther, World.empty, Store.empty,
      execInsertDeploy, execInsertCode, deployRowOf, txCreate]
  · simp [processTx, clientBalanceErrZero, InsertOneContract, DbFaults.healthy, balanceFilter,
      NewFloat, Float64.gtZero, WeiToEther_zero, BigFloat.Cmp, World.empty, Store.empty,
      execInsertDeploy, execInsertCode, deployRowOf, txCreate]
    decide
  · exact processTx_receipt_error _ _ _ _ _ _ _ _ "not found" rfl

end ChainWalker
